import Mathlib

/-!
# Verification of the yafnv FNV-1 / FNV-1a hash library

Shallow embedding of `src/lib.rs`. Machine integers (`u32`, `u64`, `u128`)
are modelled as `Nat` with explicit reduction modulo `2 ^ width` at each
wrapping multiplication; XOR of values below `2 ^ width` stays below
`2 ^ width`, matching the machine semantics. Bytes are `Nat` values
(`u8` zero-extended by `AsPrimitive::as_`).
-/

namespace Yafnv

/-- One implementation of the Rust `Fnv` trait: the bit width of the
integer type together with its two associated constants `PRIME` and
`OFFSET_BASIS` (`impl Fnv for u32 / u64 / u128`, lib.rs lines 76-87). -/
structure FnvTy where
  width : Nat
  PRIME : Nat
  OFFSET_BASIS : Nat
deriving DecidableEq, Repr

/-- Rust `WrappingMul::wrapping_mul` at the given width: multiplication
modulo `2 ^ width`. -/
def FnvTy.wrapping_mul (T : FnvTy) (a b : Nat) : Nat :=
  (a * b) % 2 ^ T.width

/-- `Fnv::fnv1` (lib.rs lines 39-46): left fold of
`hash.wrapping_mul(&Self::PRIME) ^ byte.as_()` over the data,
starting from `self`. -/
def FnvTy.fnv1 (T : FnvTy) (self : Nat) (data : List Nat) : Nat :=
  data.foldl (fun hash byte => (T.wrapping_mul hash T.PRIME) ^^^ byte) self

/-- `Fnv::fnv1a` (lib.rs lines 66-73): left fold of
`(hash ^ byte.as_()).wrapping_mul(&Self::PRIME)` over the data,
starting from `self`. -/
def FnvTy.fnv1a (T : FnvTy) (self : Nat) (data : List Nat) : Nat :=
  data.foldl (fun hash byte => T.wrapping_mul (hash ^^^ byte) T.PRIME) self

/-- `impl Fnv for u32` (lib.rs lines 76-79). -/
def u32Fnv : FnvTy :=
  { width := 32, PRIME := 0x01000193, OFFSET_BASIS := 0x811c9dc5 }

/-- `impl Fnv for u64` (lib.rs lines 80-83). -/
def u64Fnv : FnvTy :=
  { width := 64, PRIME := 0x00000100000001B3, OFFSET_BASIS := 0xcbf29ce484222325 }

/-- `impl Fnv for u128` (lib.rs lines 84-87). -/
def u128Fnv : FnvTy :=
  { width := 128
    PRIME := 0x0000000001000000000000000000013B
    OFFSET_BASIS := 0x6c62272e07bb014262b821756295c58d }

/-- Top-level `fnv1` (lib.rs lines 93-100): `T::OFFSET_BASIS.fnv1(data)`. -/
def fnv1 (T : FnvTy) (data : List Nat) : Nat :=
  T.fnv1 T.OFFSET_BASIS data

/-- Top-level `fnv1a` (lib.rs lines 106-113): `T::OFFSET_BASIS.fnv1a(data)`. -/
def fnv1a (T : FnvTy) (data : List Nat) : Nat :=
  T.fnv1a T.OFFSET_BASIS data

/-- `pub struct Fnv1aHasher(u64)` (lib.rs line 126): the streaming
adapter, a plain value wrapping a single `u64` accumulator. -/
structure Fnv1aHasher where
  state : Nat
deriving DecidableEq, Repr

/-- `Fnv1aHasher::with_key` (lib.rs lines 131-134). -/
def Fnv1aHasher.with_key (key : Nat) : Fnv1aHasher :=
  ⟨key⟩

/-- `impl Default for Fnv1aHasher` (lib.rs lines 137-142):
`Self::with_key(u64::OFFSET_BASIS)`. -/
def Fnv1aHasher.default : Fnv1aHasher :=
  Fnv1aHasher.with_key u64Fnv.OFFSET_BASIS

/-- `Hasher::write` for `Fnv1aHasher` (lib.rs lines 150-153):
`self.0 = self.0.fnv1a(bytes.iter().copied())`; mutation of `&mut self`
is modelled as returning the updated value. -/
def Fnv1aHasher.write (self : Fnv1aHasher) (bytes : List Nat) : Fnv1aHasher :=
  ⟨u64Fnv.fnv1a self.state bytes⟩

/-- `Hasher::finish` for `Fnv1aHasher` (lib.rs lines 145-148):
returns `self.0`. -/
def Fnv1aHasher.finish (self : Fnv1aHasher) : Nat :=
  self.state

/-- `finish(&self)` as a state transition: the method takes `&self`
(a shared borrow), so it returns the accumulator and the receiver,
the latter necessarily unmodified. -/
def Fnv1aHasher.finishCall (self : Fnv1aHasher) : Nat × Fnv1aHasher :=
  (self.state, self)

/-- Copying / cloning the adapter: `Fnv1aHasher` is a plain value type
holding one `u64` field, so a copy duplicates that field. -/
def Fnv1aHasher.clone (self : Fnv1aHasher) : Fnv1aHasher :=
  ⟨self.state⟩

/-- `Fnv1aBuildHasher = BuildHasherDefault<Fnv1aHasher>` (lib.rs line 157):
the zero-argument factory produces `Fnv1aHasher::default()`. -/
def Fnv1aBuildHasher.build_hasher : Fnv1aHasher :=
  Fnv1aHasher.default

/-! ## Spec-side definitions (for the refinement claims) -/

/-- Spec-side FNV-1 fold step, written from the spec's words:
`new_state = (state * PRIME) XOR widen(byte)` with wraparound
multiplication modulo `2 ^ width`; `widen` zero-extends the byte,
which on `Nat` is the identity. -/
def specFnv1Step (width prime state byte : Nat) : Nat :=
  ((state * prime) % 2 ^ width) ^^^ byte

/-- Spec-side FNV-1a fold step, written from the spec's words:
`new_state = (state XOR widen(byte)) * PRIME` with wraparound
multiplication modulo `2 ^ width`. -/
def specFnv1aStep (width prime state byte : Nat) : Nat :=
  ((state ^^^ byte) * prime) % 2 ^ width

/-! ## Helper lemmas -/

/-- Seed composition for FNV-1: folding over `A ++ B` equals folding
over `B` starting from the fold over `A`. -/
theorem FnvTy.fnv1_append (T : FnvTy) (s : Nat) (A B : List Nat) :
    T.fnv1 s (A ++ B) = T.fnv1 (T.fnv1 s A) B := by
  simp [FnvTy.fnv1, List.foldl_append]

/-- Seed composition for FNV-1a: folding over `A ++ B` equals folding
over `B` starting from the fold over `A`. -/
theorem FnvTy.fnv1a_append (T : FnvTy) (s : Nat) (A B : List Nat) :
    T.fnv1a s (A ++ B) = T.fnv1a (T.fnv1a s A) B := by
  simp [FnvTy.fnv1a, List.foldl_append]

/-- Feeding chunks to `write` one at a time, starting from accumulator `s`,
gives the FNV-1a fold of the flattened chunk list from `s`. -/
theorem foldl_write_flatten (chunks : List (List Nat)) :
    ∀ s : Nat,
      (chunks.foldl Fnv1aHasher.write ⟨s⟩).finish = u64Fnv.fnv1a s chunks.flatten := by
  induction chunks with
  | nil => intro s; rfl
  | cons c cs ih =>
    intro s
    have hw : (Fnv1aHasher.mk s).write c = ⟨u64Fnv.fnv1a s c⟩ := rfl
    rw [List.foldl_cons, hw, ih, List.flatten_cons, FnvTy.fnv1a_append]

/-! ## Claim theorems -/

/-- Claim C1. One-shot/streaming equivalence: for every finite byte sequence
and every partition of it into ordered chunks, feeding the chunks
sequentially to `write` on a default-constructed `Fnv1aHasher` and then
reading `finish` yields exactly the one-shot `fnv1a` of the whole
sequence at 64 bits. -/
theorem oneshot_streaming_equivalence (chunks : List (List Nat)) :
    (chunks.foldl Fnv1aHasher.write Fnv1aHasher.default).finish
      = fnv1a u64Fnv chunks.flatten := by
  have h := foldl_write_flatten chunks u64Fnv.OFFSET_BASIS
  simpa [Fnv1aHasher.default, Fnv1aHasher.with_key, fnv1a] using h

/-- Claim C2. Chunk-split invariance: for every starting state and every
two-way split `A ++ B`, performing `write A` then `write B` leaves the
adapter in exactly the same state as the single call `write (A ++ B)`. -/
theorem write_split_invariance (h : Fnv1aHasher) (A B : List Nat) :
    (h.write A).write B = h.write (A ++ B) := by
  simp [Fnv1aHasher.write, FnvTy.fnv1a_append]

/-- Claim C3. Fold algorithm definition: for every width instance, starting
state and byte sequence, FNV-1 is the left fold of
`state * PRIME (mod 2 ^ width)` XOR byte, and FNV-1a is the left fold of
`(state XOR byte) * PRIME (mod 2 ^ width)`, the multiplication wrapping
modulo `2 ^ width`. -/
theorem fold_algorithm_def (T : FnvTy) (s : Nat) (data : List Nat) :
    T.fnv1 s data = data.foldl (fun st b => specFnv1Step T.width T.PRIME st b) s ∧
    T.fnv1a s data = data.foldl (fun st b => specFnv1aStep T.width T.PRIME st b) s :=
  ⟨rfl, rfl⟩

/-- Claim C4. Known test vectors: one-shot FNV-1a of `""`, `"a"` and
`"foobar"` at 32 and 64 bits matches the published values. -/
theorem fnv1a_test_vectors :
    fnv1a u32Fnv [] = 0x811c9dc5 ∧
    fnv1a u64Fnv [] = 0xcbf29ce484222325 ∧
    fnv1a u32Fnv [0x61] = 0xe40c292c ∧
    fnv1a u64Fnv [0x61] = 0xaf63dc4c8601ec8c ∧
    fnv1a u32Fnv [0x66, 0x6f, 0x6f, 0x62, 0x61, 0x72] = 0xbf9cf968 ∧
    fnv1a u64Fnv [0x66, 0x6f, 0x6f, 0x62, 0x61, 0x72] = 0x85944171f73967e8 := by
  refine ⟨rfl, rfl, rfl, rfl, rfl, rfl⟩

/-- Claim C5. Width policy constants: the `PRIME` and `OFFSET_BASIS`
constants of the three width instances are exactly the published
FNV parameters. -/
theorem width_policy_constants :
    u32Fnv.PRIME = 0x01000193 ∧ u32Fnv.OFFSET_BASIS = 0x811c9dc5 ∧
    u64Fnv.PRIME = 0x00000100000001B3 ∧ u64Fnv.OFFSET_BASIS = 0xcbf29ce484222325 ∧
    u128Fnv.PRIME = 0x0000000001000000000000000000013B ∧
    u128Fnv.OFFSET_BASIS = 0x6c62272e07bb014262b821756295c58d :=
  ⟨rfl, rfl, rfl, rfl, rfl, rfl⟩

/-- Claim C6. Empty one-shot input: for every width instance and both
variants, the one-shot API applied to the empty byte sequence returns
`OFFSET_BASIS` unchanged; the empty sequence is a valid (total) input. -/
theorem oneshot_empty (T : FnvTy) :
    fnv1 T [] = T.OFFSET_BASIS ∧ fnv1a T [] = T.OFFSET_BASIS :=
  ⟨rfl, rfl⟩

/-- Claim C7. Adapter construction: `with_key k` initializes the
accumulator to exactly `k`, default construction initializes it to the
64-bit `OFFSET_BASIS`, and `finish` on a freshly constructed adapter
returns the seed. -/
theorem adapter_construction (k : Nat) :
    (Fnv1aHasher.with_key k).state = k ∧
    Fnv1aHasher.default.state = u64Fnv.OFFSET_BASIS ∧
    (Fnv1aHasher.with_key k).finish = k ∧
    Fnv1aHasher.default.finish = u64Fnv.OFFSET_BASIS :=
  ⟨rfl, rfl, rfl, rfl⟩

/-- Claim C8. Finalize is a pure, idempotent read: `finish` returns the
current accumulator and leaves the adapter unchanged, so repeated calls
return the same value, and a call after further writes reflects exactly
those writes. -/
theorem finish_pure_idempotent (h : Fnv1aHasher) (bytes : List Nat) :
    h.finishCall = (h.state, h) ∧
    (h.finishCall.2).finishCall.1 = h.finishCall.1 ∧
    ((h.finishCall.2).write bytes).finish = u64Fnv.fnv1a h.state bytes :=
  ⟨rfl, rfl, rfl⟩

/-- Claim C9. Value semantics: cloning an in-progress adapter produces an
instance whose accumulator equals the original's, and subsequent writes
to either instance depend only on that instance's own state and writes,
never on the other's. -/
theorem clone_value_semantics (h : Fnv1aHasher) (a b : List Nat) :
    h.clone.finish = h.finish ∧
    (h.clone.write a).finish = u64Fnv.fnv1a h.finish a ∧
    (h.write b).finish = u64Fnv.fnv1a h.finish b ∧
    (h.clone.write a).finish = (h.write a).finish :=
  ⟨rfl, rfl, rfl, rfl⟩

/-- Claim C10. Seed-composition law: for every width instance, every
seed `s`, both variants and all byte sequences `A`, `B`, hashing the
concatenation from `s` equals hashing `B` from the result of hashing
`A` from `s`. -/
theorem seed_composition (T : FnvTy) (s : Nat) (A B : List Nat) :
    T.fnv1 s (A ++ B) = T.fnv1 (T.fnv1 s A) B ∧
    T.fnv1a s (A ++ B) = T.fnv1a (T.fnv1a s A) B :=
  ⟨T.fnv1_append s A B, T.fnv1a_append s A B⟩

end Yafnv
